import Mathlib

/-!
Shallow embedding of the `labyrinth` maze generator (src/maze.rs, src/main.rs).

The `grid` crate stores a `Grid<T>` as a flat row-major vector with
`rows * cols` entries; `Grid::new(r, c)` default-fills, `Grid::init(r, c, v)`
fills with `v`, `get(row, col)` is bounds-checked, `get_unchecked_mut` writes
at flat index `row * cols + col`.  `Maze::new(width, height)` builds grids of
`width` rows and `height` columns, so tile coordinate `(x, y)` is grid row `x`
and grid column `y`.

The random source (`R: Rng`) is embedded as an abstract state type together
with the two operations `populate` consumes: `gen_range(0..n)` and
`shuffle` of the 4-candidate list.  `gen_range` over an empty range panics in
Rust; the embedding returns `none` in that case, so `populate` is an
`Option`-valued function.  The depth-first loop is given explicit fuel; its
termination is a theorem (the fuel `2*width*height + 1` always suffices).
-/

inductive TileState where
  | Wall
  | Empty
  | Start
  | End
deriving DecidableEq, Repr, Inhabited

inductive Direction where
  | North
  | South
  | East
  | West
deriving DecidableEq, Repr

structure Grid (α : Type) where
  rows : Nat
  cols : Nat
  data : List α
deriving DecidableEq, Repr

namespace Grid

def init (α : Type) (rows cols : Nat) (v : α) : Grid α :=
  ⟨rows, cols, List.replicate (rows * cols) v⟩

def new (α : Type) [Inhabited α] (rows cols : Nat) : Grid α :=
  init α rows cols default

def get {α : Type} (g : Grid α) (row col : Nat) : Option α :=
  if row < g.rows ∧ col < g.cols then g.data[row * g.cols + col]? else none

/-- Models a write through `get_unchecked_mut` / `get_mut(..).unwrap()`:
the call sites all establish `row < rows ∧ col < cols` first. -/
def set {α : Type} (g : Grid α) (row col : Nat) (v : α) : Grid α :=
  ⟨g.rows, g.cols, g.data.set (row * g.cols + col) v⟩

/-- The flat-storage invariant the `grid` crate maintains. -/
def Wf {α : Type} (g : Grid α) : Prop :=
  g.data.length = g.rows * g.cols

end Grid

structure Maze where
  width : Nat
  height : Nat
  data : Grid TileState
  visited : Grid Bool
deriving DecidableEq, Repr

namespace Maze

def new (width height : Nat) : Maze :=
  { width := width
    height := height
    data := Grid.new TileState width height
    visited := Grid.init Bool width height false }

/-- `!matches!(g.get(..), Some(TileState::Wall) | None)` -/
def  nonWall : Option TileState → Bool
  | some TileState.Wall => false
  | none => false
  | some _ => true

/-- Direct translation of `Maze::is_valid_neighbour`: count the non-wall
tiles among the eight saturating-subtraction neighbours of `(x, y)` that are
not excluded by `direction`, and require the count to be zero and `(x, y)`
to be unvisited. -/
def  is_valid_neighbour (m : Maze) (x y : Nat) (direction : Direction) : Bool :=
  let xs := x - 1
  let ys := y - 1
  let c1 : Nat := if nonWall (m.data.get (x + 1) y) &&
      !(direction == Direction.West) then 1 else 0
  let c2 : Nat := if nonWall (m.data.get x (y + 1)) &&
      !(direction == Direction.South) then 1 else 0
  let c3 : Nat := if nonWall (m.data.get (x + 1) (y + 1)) &&
      !(direction == Direction.South || direction == Direction.West) then 1 else 0
  let c4 : Nat := if nonWall (m.data.get xs y) &&
      !(direction == Direction.East) then 1 else 0
  let c5 : Nat := if nonWall (m.data.get xs (y + 1)) &&
      !(direction == Direction.South || direction == Direction.East) then 1 else 0
  let c6 : Nat := if nonWall (m.data.get x ys) &&
      !(direction == Direction.North) then 1 else 0
  let c7 : Nat := if nonWall (m.data.get (x + 1) ys) &&
      !(direction == Direction.North || direction == Direction.West) then 1 else 0
  let c8 : Nat := if nonWall (m.data.get xs ys) &&
      !(direction == Direction.North || direction == Direction.East) then 1 else 0
  (c1 + c2 + c3 + c4 + c5 + c6 + c7 + c8 == 0) &&
    (m.visited.get x y == some false)

end Maze

/-- One neighbour candidate: coordinates plus the direction of travel. -/
abbrev Cand := Nat × Nat × Direction

/-- The abstract random source: a state type `σ` with the two operations
`Maze::populate` uses.  `genBelow s n` models `rng.gen_range(0..n)` for
`n > 0`; `shuffle` models `SliceRandom::shuffle` on the candidate list. -/
structure RngOps (σ : Type) where
  genBelow : σ → Nat → Nat × σ
  shuffle : σ → List Cand → List Cand × σ

/-- `rng.gen_range(0..n)`: panics (↦ `none`) when the range is empty. -/
def RngOps.genRange {σ : Type} (ops : RngOps σ) (s : σ) (n : Nat) :
    Option (Nat × σ) :=
  if n = 0 then none else some (ops.genBelow s n)

/-- The four candidate neighbours of `(x, y)`, in source order:
North `(x, y+1)`, East `(x+1, y)`, South `(x, y-1)` and West `(x-1, y)`
with saturating subtraction. -/
def neighboursOf (x y : Nat) : List Cand :=
  [(x, y + 1, Direction.North), (x + 1, y, Direction.East),
   (x, y - 1, Direction.South), (x - 1, y, Direction.West)]

namespace Maze

/-- The depth-first carving loop of `Maze::populate` (the `while let` over the
explicit stack), with explicit fuel.  The head of `stack` is the top
(`stack.last()` in the Rust `Vec`). -/
def populateLoop {σ : Type} (ops : RngOps σ) :
    Nat → Maze → List (Nat × Nat) → σ → Option (Maze × σ)
  | 0, _, _, _ => none
  | _ + 1, m, [], s => some (m, s)
  | fuel + 1, m, (x, y) :: rest, s =>
    let shuffled := ops.shuffle s (neighboursOf x y)
    if (m.data.get x y).isSome then
      match shuffled.1.find? (fun c => m.is_valid_neighbour c.1 c.2.1 c.2.2) with
      | some (nx, ny, _) =>
        populateLoop ops fuel
          { m with data := m.data.set x y TileState.Empty,
                   visited := m.visited.set nx ny true }
          ((nx, ny) :: (x, y) :: rest) shuffled.2
      | none =>
        populateLoop ops fuel
          { m with data := m.data.set x y TileState.Empty } rest shuffled.2
    else
      populateLoop ops fuel m rest shuffled.2

/-- The forward start/end scan: `iter_mut().find(|t| t == Empty)` followed by
an overwrite.  `placeFirst t l` replaces the first `Empty` of `l` by `t`. -/
def placeFirst (t : TileState) : List TileState → List TileState
  | [] => []
  | a :: rest =>
    if a = TileState.Empty then t :: rest else a :: placeFirst t rest

/-- `iter_mut().rev().find(|t| t == Empty)`: replace the last `Empty`. -/
def placeLast (t : TileState) (l : List TileState) : List TileState :=
  (placeFirst t l.reverse).reverse

/-- The two start/end scans at the end of `Maze::populate`: set the first
`Empty` (row-major) to `Start`, then the last remaining `Empty` to `End`. -/
def placeStartEnd (l : List TileState) : List TileState :=
  placeLast TileState.End (placeFirst TileState.Start l)

/-- `Maze::populate`: sample the seed cell, mark it visited, run the carving
loop (with fuel `2*width*height + 1`, proved sufficient below), then run the
two start/end scans.  `none` models a panic (empty sampling range or fuel
exhaustion). -/
def populate {σ : Type} (ops : RngOps σ) (m : Maze) (s : σ) :
    Option (Maze × σ) :=
  match ops.genRange s m.width with
  | none => none
  | some (start_x, s1) =>
    match ops.genRange s1 m.height with
    | none => none
    | some (start_y, s2) =>
      let m1 := { m with visited := m.visited.set start_x start_y true }
      match populateLoop ops (2 * (m.width * m.height) + 1) m1
          [(start_x, start_y)] s2 with
      | none => none
      | some (m2, s3) =>
        some ({ m2 with
                  data := { m2.data with data := placeStartEnd m2.data.data } },
              s3)

end Maze

/-- `rgb::RGB8`, three 8-bit channels. -/
structure RGB8 where
  r : Nat
  g : Nat
  b : Nat
deriving DecidableEq, Repr

/-- `impl From<&TileState> for RGB8`. -/
def RGB8.fromTile : TileState → RGB8
  | TileState.Wall => ⟨0x00, 0x00, 0x00⟩
  | TileState.Empty => ⟨0xFF, 0xFF, 0xFF⟩
  | TileState.Start => ⟨0x00, 0xFF, 0x00⟩
  | TileState.End => ⟨0xFF, 0x00, 0x00⟩

/-- The image `Maze::save_to_file` hands to the PNG encoder: declared
dimensions plus the row-major pixel buffer. -/
structure PngImage where
  width : Nat
  height : Nat
  pixels : List RGB8
deriving DecidableEq, Repr

/-- `Maze::save_to_file`: a `width × height`, 8-bit RGB image whose pixel
buffer is the tile grid's row-major enumeration mapped through
`RGB8::from`.  (The actual file I/O and PNG encoding are external.) -/
def Maze.save_to_file (m : Maze) : PngImage :=
  { width := m.width
    height := m.height
    pixels := m.data.data.map RGB8.fromTile }

/-- Pixel `(row, col)` of an image: entry `row * width + col` of the
row-major pixel buffer. -/
def PngImage.pixelAt (img : PngImage) (row col : Nat) : Option RGB8 :=
  if row < img.height ∧ col < img.width then
    img.pixels[row * img.width + col]?
  else none

/-! ### Spec-side formulations of the neighbour-validity rule (claim C2) -/

/-- Direction of travel as a vector in `(x, y)` coordinates. -/
def travelVec : Direction → Int × Int
  | Direction.North => (0, 1)
  | Direction.South => (0, -1)
  | Direction.East => (1, 0)
  | Direction.West => (-1, 0)

/-- The eight surrounding offsets (4 orthogonal, 4 diagonal), listed in the
order the source checks them. -/
def offsets8 : List (Int × Int) :=
  [(1, 0), (0, 1), (1, 1), (-1, 0), (-1, 1), (0, -1), (1, -1), (-1, -1)]

/-- An offset is counted unless it lies on the side the move came from:
the edge opposite the travel direction and the two diagonals flanking it,
i.e. the offsets with negative dot product with the travel vector. -/
def notFromEdge (d : Direction) (o : Int × Int) : Bool :=
  decide (0 ≤ o.1 * (travelVec d).1 + o.2 * (travelVec d).2)

/-- Bounds-checked grid access at signed coordinates: negative coordinates
are out of grid. -/
def Grid.getI {α : Type} (g : Grid α) (xi yi : Int) : Option α :=
  if 0 ≤ xi ∧ 0 ≤ yi then g.get xi.toNat yi.toNat else none

/-- The count exactly as claim C2 words it: among the up-to-8 true
surrounding cells of `(x, y)`, those in-grid and not `Wall`, excluding the
incoming edge and its two flanking diagonals. -/
def claimNeighbourCount (m : Maze) (x y : Nat) (d : Direction) : Nat :=
  (offsets8.filter (fun o =>
    notFromEdge d o &&
      Maze.nonWall (m.data.getI ((x : Int) + o.1) ((y : Int) + o.2)))).length

/-- Claim C2's validity predicate, as stated: unvisited and the filtered
surrounding count is zero. -/
def claimValidExact (m : Maze) (x y : Nat) (d : Direction) : Bool :=
  (claimNeighbourCount m x y d == 0) && (m.visited.get x y == some false)

/-- Offset application by saturating subtraction, as the source computes
its neighbour coordinates. -/
def satShift (n : Nat) (d : Int) : Nat :=
  if d < 0 then n - 1 else n + d.toNat

/-- The surrounding count with coordinates computed by saturating
subtraction: at `x = 0` or `y = 0` the candidate's own cell (and duplicated
orthogonal cells) stand in for the out-of-grid west/south cells. -/
def satNeighbourCount (m : Maze) (x y : Nat) (d : Direction) : Nat :=
  (offsets8.filter (fun o =>
    notFromEdge d o &&
      Maze.nonWall (m.data.get (satShift x o.1) (satShift y o.2)))).length

/-- The amended validity predicate: unvisited and the saturating-coordinate
surrounding count is zero. -/
def claimValidSat (m : Maze) (x y : Nat) (d : Direction) : Bool :=
  (satNeighbourCount m x y d == 0) && (m.visited.get x y == some false)

/-! ### Instrumented carving loop (claims C3, C5)

`populateLoopT` is `populateLoop` with a ghost log of every coordinate
pushed onto the stack and a counter of unsafe events: visits to the
defensive out-of-bounds branch, `get_mut(..).unwrap()` calls that would
fail, and unchecked visited-grid writes that would be out of bounds. -/

namespace Maze

def populateLoopT {σ : Type} (ops : RngOps σ) :
    Nat → Maze → List (Nat × Nat) → σ → List (Nat × Nat) → Nat →
      Option (Maze × σ × List (Nat × Nat) × Nat)
  | 0, _, _, _, _, _ => none
  | _ + 1, m, [], s, log, bad => some (m, s, log, bad)
  | fuel + 1, m, (x, y) :: rest, s, log, bad =>
    let shuffled := ops.shuffle s (neighboursOf x y)
    if (m.data.get x y).isSome then
      let unwrapBad : Nat :=
        if x < m.data.rows && y < m.data.cols then 0 else 1
      match shuffled.1.find? (fun c => m.is_valid_neighbour c.1 c.2.1 c.2.2) with
      | some (nx, ny, _) =>
        let writeBad : Nat :=
          if nx < m.visited.rows && ny < m.visited.cols then 0 else 1
        populateLoopT ops fuel
          { m with data := m.data.set x y TileState.Empty,
                   visited := m.visited.set nx ny true }
          ((nx, ny) :: (x, y) :: rest) shuffled.2 (log ++ [(nx, ny)])
          (bad + unwrapBad + writeBad)
      | none =>
        populateLoopT ops fuel
          { m with data := m.data.set x y TileState.Empty } rest shuffled.2
          log (bad + unwrapBad)
    else
      populateLoopT ops fuel m rest shuffled.2 log (bad + 1)

/-- `Maze::populate` with the ghost push log (the seed cell counts as the
first push) and the unsafe-event counter (the seed cell's unchecked
visited write counts when out of bounds). -/
def populateT {σ : Type} (ops : RngOps σ) (m : Maze) (s : σ) :
    Option (Maze × σ × List (Nat × Nat) × Nat) :=
  match ops.genRange s m.width with
  | none => none
  | some (start_x, s1) =>
    match ops.genRange s1 m.height with
    | none => none
    | some (start_y, s2) =>
      let seedBad : Nat :=
        if start_x < m.visited.rows && start_y < m.visited.cols then 0 else 1
      let m1 := { m with visited := m.visited.set start_x start_y true }
      match populateLoopT ops (2 * (m.width * m.height) + 1) m1
          [(start_x, start_y)] s2 [(start_x, start_y)] seedBad with
      | none => none
      | some (m2, s3, log, bad) =>
        some ({ m2 with
                  data := { m2.data with data := placeStartEnd m2.data.data } },
              s3, log, bad)

/-- Number of still-unvisited cells. -/
def unvisitedCount (m : Maze) : Nat :=
  m.visited.data.count false

end Maze

namespace Maze

/-- Dimensional well-formedness: both grids have `width` rows, `height`
columns and a full backing store, as `Maze::new` establishes. -/
def DimsOk (m : Maze) : Prop :=
  m.data.rows = m.width ∧ m.data.cols = m.height ∧ m.data.Wf ∧
    m.visited.rows = m.width ∧ m.visited.cols = m.height ∧ m.visited.Wf

/-- Every coordinate on the stack has been marked visited (which also
places it inside the grid). -/
def StackOk (m : Maze) (stack : List (Nat × Nat)) : Prop :=
  ∀ p ∈ stack, m.visited.get p.1 p.2 = some true

/-- Every non-`Wall` tile belongs to a visited cell. -/
def Carved (m : Maze) : Prop :=
  ∀ x y : Nat, nonWall (m.data.get x y) = true → m.visited.get x y = some true

end Maze

/-- A concrete random source used to instantiate the general theorems:
`gen_range` always returns 0 and the shuffle is the identity permutation. -/
def cOps : RngOps Nat :=
  { genBelow := fun s _ => (0, s + 1)
    shuffle := fun s l => (l, s + 1) }

/-- A concrete 2 × 2 maze state: tile `(0,0)` is `Empty`, everything else
`Wall`, nothing visited.  Used to separate the source's saturating
neighbour count from claim C2's exact one. -/
def mazeC2 : Maze :=
  { width := 2
    height := 2
    data := ⟨2, 2, [TileState.Empty, TileState.Wall, TileState.Wall, TileState.Wall]⟩
    visited := ⟨2, 2, List.replicate 4 false⟩ }

/-- A concrete 2 × 2 maze state: tile `(0,1)` is `Empty`, everything else
`Wall`.  Used to separate pixel `(row, col)` from tile `(col, row)`. -/
def mazeC9 : Maze :=
  { width := 2
    height := 2
    data := ⟨2, 2, [TileState.Wall, TileState.Empty, TileState.Wall, TileState.Wall]⟩
    visited := ⟨2, 2, List.replicate 4 false⟩ }

/-- The observable behaviour of `main` for given dimensions and random
source: build the maze, populate it, save it.  `none` models the process
aborting before the output file is written (`rng.gen_range` panics inside
`populate`, before any carving). -/
def mainModel {σ : Type} (ops : RngOps σ) (w h : Nat) (s : σ) :
    Option PngImage :=
  (Maze.populate ops (Maze.new w h) s).map (fun r => r.1.save_to_file)

/-! ## Basic grid lemmas -/

theorem rowMajor_index_lt {r c rows cols : Nat} (hr : r < rows) (hc : c < cols) :
    r * cols + c < rows * cols := by
  have h1 : r * cols + c < (r + 1) * cols := by
    have : (r + 1) * cols = r * cols + cols := by ring
    omega
  have h2 : (r + 1) * cols ≤ rows * cols := Nat.mul_le_mul_right _ hr
  omega

theorem rowMajor_index_inj {r c r' c' cols : Nat} (hc : c < cols) (hc' : c' < cols)
    (h : r * cols + c = r' * cols + c') : r = r' ∧ c = c' := by
  have key : ∀ a b u v : Nat, u < cols → v < cols → a < b →
      ¬(a * cols + u = b * cols + v) := by
    intro a b u v hu _ hab heq
    have h1 : a + 1 ≤ b := hab
    have h2 : (a + 1) * cols ≤ b * cols := Nat.mul_le_mul_right _ h1
    have h3 : (a + 1) * cols = a * cols + cols := by ring
    omega
  rcases Nat.lt_trichotomy r r' with hlt | heq | hgt
  · exact absurd h (key r r' c c' hc hc' hlt)
  · exact ⟨heq, by rw [heq] at h; omega⟩
  · exact absurd h.symm (key r' r c' c hc' hc hgt)

namespace Grid

theorem get_some_bounds {α : Type} {g : Grid α} {r c : Nat} {v : α}
    (h : g.get r c = some v) : r < g.rows ∧ c < g.cols := by
  by_cases hb : r < g.rows ∧ c < g.cols
  · exact hb
  · simp [Grid.get, hb] at h

theorem get_eq_data {α : Type} {g : Grid α} {r c : Nat}
    (hr : r < g.rows) (hc : c < g.cols) :
    g.get r c = g.data[r * g.cols + c]? := by
  simp [Grid.get, hr, hc]

theorem get_isSome {α : Type} {g : Grid α} (hw : g.Wf) {r c : Nat}
    (hr : r < g.rows) (hc : c < g.cols) : (g.get r c).isSome = true := by
  rw [get_eq_data hr hc]
  have : r * g.cols + c < g.data.length := by
    rw [hw]; exact rowMajor_index_lt hr hc
  simp [List.getElem?_eq_getElem this]

theorem rows_set {α : Type} (g : Grid α) (r c : Nat) (v : α) :
    (g.set r c v).rows = g.rows := rfl

theorem cols_set {α : Type} (g : Grid α) (r c : Nat) (v : α) :
    (g.set r c v).cols = g.cols := rfl

theorem wf_set {α : Type} {g : Grid α} (hw : g.Wf) (r c : Nat) (v : α) :
    (g.set r c v).Wf := by
  show (g.data.set (r * g.cols + c) v).length = g.rows * g.cols
  rw [List.length_set]
  exact hw

theorem get_set_self {α : Type} {g : Grid α} (hw : g.Wf) {r c : Nat}
    (hr : r < g.rows) (hc : c < g.cols) (v : α) :
    (g.set r c v).get r c = some v := by
  have hlen : r * g.cols + c < g.data.length := by
    rw [hw]; exact rowMajor_index_lt hr hc
  simp [Grid.get, Grid.set, hr, hc, List.getElem?_set, hlen]

theorem get_set_or {α : Type} (g : Grid α) (r c a b : Nat) (v : α) :
    (g.set r c v).get a b = g.get a b ∨ (g.set r c v).get a b = some v := by
  by_cases hb : a < g.rows ∧ b < g.cols
  · have hgs : (g.set r c v).get a b = (g.data.set (r * g.cols + c) v)[a * g.cols + b]? := by
      simp [Grid.get, Grid.set, hb]
    have hg : g.get a b = g.data[a * g.cols + b]? := by
      simp [Grid.get, hb]
    rw [hgs, hg, List.getElem?_set]
    by_cases hij : r * g.cols + c = a * g.cols + b
    · rw [if_pos hij]
      by_cases hlen : r * g.cols + c < g.data.length
      · right; rw [if_pos hlen]
      · left
        rw [if_neg hlen]
        have hge : g.data.length ≤ a * g.cols + b := by omega
        rw [List.getElem?_eq_none hge]
    · left; rw [if_neg hij]
  · left; simp [Grid.get, Grid.set, hb]

theorem get_set_other {α : Type} (g : Grid α) {r c a b : Nat} (v : α)
    (hne : ¬(a = r ∧ b = c)) (hb : b < g.cols) (hc : c < g.cols) :
    (g.set r c v).get a b = g.get a b := by
  by_cases hin : a < g.rows ∧ b < g.cols
  · simp only [Grid.get, Grid.set, hin, if_true]
    rw [List.getElem?_set]
    have : ¬(r * g.cols + c = a * g.cols + b) := by
      intro hidx
      obtain ⟨h1, h2⟩ := rowMajor_index_inj hc hb hidx
      exact hne ⟨h1.symm, h2.symm⟩
    simp [this]
  · simp [Grid.get, Grid.set, hin]

theorem get_set_cases {α : Type} (g : Grid α) (a b : Nat) {r c : Nat} (v : α)
    (hc : c < g.cols) :
    (g.set r c v).get a b = g.get a b ∨
      (a = r ∧ b = c ∧ (g.set r c v).get a b = some v) := by
  by_cases hab : a = r ∧ b = c
  · obtain ⟨rfl, rfl⟩ := hab
    by_cases hin : a < g.rows ∧ b < g.cols
    · have hgs : (g.set a b v).get a b =
          (g.data.set (a * g.cols + b) v)[a * g.cols + b]? := by
        simp [Grid.get, Grid.set, hin]
      have hg : g.get a b = g.data[a * g.cols + b]? := by
        simp [Grid.get, hin]
      rw [hgs, List.getElem?_set, if_pos rfl]
      by_cases hlen : a * g.cols + b < g.data.length
      · right; exact ⟨rfl, rfl, by rw [if_pos hlen]⟩
      · left
        rw [if_neg hlen, hg, List.getElem?_eq_none (by omega)]
    · left; simp [Grid.get, Grid.set, hin]
  · left
    by_cases hin : a < g.rows ∧ b < g.cols
    · have hgs : (g.set r c v).get a b =
          (g.data.set (r * g.cols + c) v)[a * g.cols + b]? := by
        simp [Grid.get, Grid.set, hin]
      have hg : g.get a b = g.data[a * g.cols + b]? := by
        simp [Grid.get, hin]
      rw [hgs, hg, List.getElem?_set]
      have hne : ¬(r * g.cols + c = a * g.cols + b) := by
        intro hidx
        obtain ⟨h1, h2⟩ := rowMajor_index_inj hc hin.2 hidx
        exact hab ⟨h1.symm, h2.symm⟩
      rw [if_neg hne]
    · simp [Grid.get, Grid.set, hin]

theorem get_set_true_mono {g : Grid Bool} {a b r c : Nat}
    (h : g.get a b = some true) : (g.set r c true).get a b = some true := by
  rcases get_set_or g r c a b true with h' | h'
  · rw [h', h]
  · rw [h']

theorem count_false_set_true {g : Grid Bool} {r c : Nat}
    (h : g.get r c = some false) :
    (g.set r c true).data.count false + 1 = g.data.count false := by
  obtain ⟨hr, hc⟩ := get_some_bounds h
  rw [get_eq_data hr hc] at h
  obtain ⟨hlen, hval⟩ := List.getElem?_eq_some_iff.mp h
  have hmem : false ∈ g.data := by
    rw [← hval]; exact List.getElem_mem hlen
  have hpos : 0 < g.data.count false := List.count_pos_iff.mpr hmem
  show (g.data.set (r * g.cols + c) true).count false + 1 = g.data.count false
  rw [List.count_set true false g.data _ hlen]
  simp [hval]
  omega

end Grid

theorem getElem?_set_or {α : Type} (l : List α) (n i : Nat) (v : α) :
    (l.set n v)[i]? = l[i]? ∨ (l.set n v)[i]? = some v := by
  rw [List.getElem?_set]
  by_cases hni : n = i
  · subst hni
    rw [if_pos rfl]
    by_cases hlen : n < l.length
    · right; rw [if_pos hlen]
    · left; rw [if_neg hlen, List.getElem?_eq_none (by omega)]
  · left; rw [if_neg hni]

theorem Maze.is_valid_neighbour_unvisited {m : Maze} {x y : Nat} {d : Direction}
    (h : m.is_valid_neighbour x y d = true) : m.visited.get x y = some false := by
  simp only [Maze.is_valid_neighbour, Bool.and_eq_true, beq_iff_eq] at h
  exact h.2

/-! ## The carving loop: invariants and termination -/

theorem Maze.populateLoopT_spec {σ : Type} (ops : RngOps σ) :
    ∀ (fuel : Nat) (m : Maze) (stack : List (Nat × Nat)) (s : σ)
      (log : List (Nat × Nat)) (bad : Nat),
      m.DimsOk → m.StackOk stack → m.Carved →
      (∀ p ∈ log, m.visited.get p.1 p.2 = some true) → log.Nodup →
      2 * m.unvisitedCount + stack.length < fuel →
      ∃ m' s' log',
        Maze.populateLoopT ops fuel m stack s log bad = some (m', s', log', bad) ∧
        m'.width = m.width ∧ m'.height = m.height ∧
        m'.DimsOk ∧ m'.Carved ∧
        (∀ p : Nat × Nat, m.visited.get p.1 p.2 = some true →
          m'.visited.get p.1 p.2 = some true) ∧
        (∀ p ∈ log', m'.visited.get p.1 p.2 = some true) ∧
        log'.Nodup ∧
        log'.length + m'.unvisitedCount = log.length + m.unvisitedCount ∧
        (∀ i : Nat, m'.data.data[i]? = m.data.data[i]? ∨
          m'.data.data[i]? = some TileState.Empty) := by
  intro fuel
  induction fuel with
  | zero =>
    intro m stack s log bad _ _ _ _ _ hfuel
    omega
  | succ fuel ih =>
    intro m stack s log bad hdims hstack hcarved hlog hnodup hfuel
    match stack with
    | [] =>
      refine ⟨m, s, log, ?_, rfl, rfl, hdims, hcarved,
        fun p hp => hp, hlog, hnodup, rfl, fun i => Or.inl rfl⟩
      rfl
    | (x, y) :: rest =>
      have hxy : m.visited.get x y = some true := hstack (x, y) (by simp)
      have hxb := Grid.get_some_bounds hxy
      obtain ⟨hdr, hdc, hdwf, hvr, hvc, hvwf⟩ := hdims
      have hxd : x < m.data.rows := by rw [hdr, ← hvr]; exact hxb.1
      have hyd : y < m.data.cols := by rw [hdc, ← hvc]; exact hxb.2
      have hsome : (m.data.get x y).isSome = true := Grid.get_isSome hdwf hxd hyd
      have hub : (if x < m.data.rows && y < m.data.cols then (0 : Nat) else 1) = 0 := by
        simp [hxd, hyd]
      rw [Maze.populateLoopT]
      simp only [hsome, if_true, hub]
      cases hfind : (ops.shuffle s (neighboursOf x y)).1.find?
          (fun c => m.is_valid_neighbour c.1 c.2.1 c.2.2) with
      | none =>
        -- dead end: carve the current cell and pop it
        set m2 : Maze :=
          { m with data := m.data.set x y TileState.Empty } with hm2
        have hdims2 : m2.DimsOk :=
          ⟨hdr, hdc, Grid.wf_set hdwf x y TileState.Empty, hvr, hvc, hvwf⟩
        have hstack2 : m2.StackOk rest := fun p hp => hstack p (by simp [hp])
        have hcarved2 : m2.Carved := by
          intro a b hnw
          rcases Grid.get_set_cases m.data a b TileState.Empty hyd with hcase | hcase
          · show m.visited.get a b = some true
            exact hcarved a b (by rw [← hcase]; exact hnw)
          · obtain ⟨rfl, rfl, _⟩ := hcase
            exact hxy
        have hu2 : m2.unvisitedCount = m.unvisitedCount := rfl
        obtain ⟨m', s', log', heq, hw, hh, hd, hc, hmono, hlog', hnd', hcnt, hdata⟩ :=
          ih m2 rest (ops.shuffle s (neighboursOf x y)).2 log bad
            hdims2 hstack2 hcarved2 hlog hnodup (by simp at hfuel ⊢; omega)
        refine ⟨m', s', log', ?_, hw, hh, hd, hc, hmono, hlog', hnd', ?_, ?_⟩
        · rw [← heq]; simp
        · rw [hcnt, hu2]
        · intro i
          rcases hdata i with hdi | hdi
          · rcases getElem?_set_or m.data.data (x * m.data.cols + y) i
                TileState.Empty with ho | ho
            · left; rw [hdi]; exact ho
            · right; rw [hdi]; exact ho
          · right; exact hdi
      | some cand =>
        obtain ⟨nx, ny, d⟩ := cand
        have hpred : m.is_valid_neighbour nx ny d = true := by
          have := List.find?_some hfind
          simpa using this
        have hvu : m.visited.get nx ny = some false :=
          Maze.is_valid_neighbour_unvisited hpred
        have hnb := Grid.get_some_bounds hvu
        have hwb : (if nx < m.visited.rows && ny < m.visited.cols
            then (0 : Nat) else 1) = 0 := by
          simp [hnb.1, hnb.2]
        set m2 : Maze :=
          { m with data := m.data.set x y TileState.Empty,
                   visited := m.visited.set nx ny true } with hm2
        have hdims2 : m2.DimsOk :=
          ⟨hdr, hdc, Grid.wf_set hdwf x y TileState.Empty, hvr, hvc,
            Grid.wf_set hvwf nx ny true⟩
        have hnvis : m2.visited.get nx ny = some true :=
          Grid.get_set_self hvwf hnb.1 hnb.2 true
        have hstack2 : m2.StackOk ((nx, ny) :: (x, y) :: rest) := by
          intro p hp
          rcases List.mem_cons.mp hp with rfl | hp'
          · exact hnvis
          · exact Grid.get_set_true_mono (hstack p hp')
        have hcarved2 : m2.Carved := by
          intro a b hnw
          rcases Grid.get_set_cases m.data a b TileState.Empty hyd with hcase | hcase
          · exact Grid.get_set_true_mono
              (hcarved a b (by rw [← hcase]; exact hnw))
          · obtain ⟨rfl, rfl, _⟩ := hcase
            exact Grid.get_set_true_mono hxy
        have hlog2 : ∀ p ∈ log ++ [(nx, ny)], m2.visited.get p.1 p.2 = some true := by
          intro p hp
          rcases List.mem_append.mp hp with hp' | hp'
          · exact Grid.get_set_true_mono (hlog p hp')
          · simp at hp'
            subst hp'
            exact hnvis
        have hnotin : (nx, ny) ∉ log := by
          intro hmem
          rw [hlog (nx, ny) hmem] at hvu
          cases hvu
        have hnodup2 : (log ++ [(nx, ny)]).Nodup := by
          rw [List.nodup_append]
          refine ⟨hnodup, List.nodup_singleton _, ?_⟩
          intro p hp1 hp2
          simp at hp2
          subst hp2
          exact hnotin hp1
        have hu2 : m2.unvisitedCount + 1 = m.unvisitedCount :=
          Grid.count_false_set_true hvu
        obtain ⟨m', s', log', heq, hw, hh, hd, hc, hmono, hlog', hnd', hcnt, hdata⟩ :=
          ih m2 ((nx, ny) :: (x, y) :: rest) (ops.shuffle s (neighboursOf x y)).2
            (log ++ [(nx, ny)]) bad
            hdims2 hstack2 hcarved2 hlog2 hnodup2 (by simp at hfuel ⊢; omega)
        refine ⟨m', s', log', ?_, hw, hh, hd, hc, ?_, hlog', hnd', ?_, ?_⟩
        · simp only [hwb]
          exact heq
        · intro p hp
          exact hmono p (Grid.get_set_true_mono hp)
        · rw [hcnt]
          simp
          omega
        · intro i
          rcases hdata i with hdi | hdi
          · rcases getElem?_set_or m.data.data (x * m.data.cols + y) i
                TileState.Empty with ho | ho
            · left; rw [hdi]; exact ho
            · right; rw [hdi]; exact ho
          · right; exact hdi

/-! ## Start/End scan lemmas -/

theorem Grid.get_init {α : Type} (r c : Nat) (v : α) (a b : Nat) :
    (Grid.init α r c v).get a b = if a < r ∧ b < c then some v else none := by
  by_cases hin : a < r ∧ b < c
  · have hlt : a * c + b < r * c := rowMajor_index_lt hin.1 hin.2
    simp [Grid.init, Grid.get, hin, List.getElem?_replicate, hlt]
  · simp [Grid.init, Grid.get, hin]

namespace Maze

theorem placeFirst_length (t : TileState) (l : List TileState) :
    (placeFirst t l).length = l.length := by
  induction l with
  | nil => rfl
  | cons a rest ih =>
    by_cases ha : a = TileState.Empty <;> simp [placeFirst, ha, ih]

theorem placeFirst_of_count_zero (t : TileState) (l : List TileState)
    (h : l.count TileState.Empty = 0) : placeFirst t l = l := by
  induction l with
  | nil => rfl
  | cons a rest ih =>
    rw [List.count_cons] at h
    have ha : a ≠ TileState.Empty := by
      intro rfl1
      simp [rfl1] at h
    rw [placeFirst, if_neg ha, ih (by omega)]

theorem placeFirst_count_self (t : TileState) (l : List TileState)
    (ht : t ≠ TileState.Empty) (h : 0 < l.count TileState.Empty) :
    (placeFirst t l).count t = l.count t + 1 := by
  induction l with
  | nil => simp at h
  | cons a rest ih =>
    by_cases ha : a = TileState.Empty
    · subst ha
      rw [placeFirst, if_pos rfl]
      rw [List.count_cons_self, List.count_cons_of_ne ht]
    · rw [placeFirst, if_neg ha]
      rw [List.count_cons_of_ne (fun he => ha he.symm)] at h
      have hrec := ih h
      by_cases hat : t = a
      · subst hat
        rw [List.count_cons_self, List.count_cons_self, hrec]
      · rw [List.count_cons_of_ne hat, List.count_cons_of_ne hat, hrec]

theorem placeFirst_count_empty (t : TileState) (l : List TileState)
    (ht : t ≠ TileState.Empty) (h : 0 < l.count TileState.Empty) :
    (placeFirst t l).count TileState.Empty + 1 = l.count TileState.Empty := by
  induction l with
  | nil => simp at h
  | cons a rest ih =>
    by_cases ha : a = TileState.Empty
    · subst ha
      rw [placeFirst, if_pos rfl]
      rw [List.count_cons_of_ne (fun he => ht he.symm), List.count_cons_self]
    · rw [placeFirst, if_neg ha]
      rw [List.count_cons_of_ne (fun he => ha he.symm)] at h
      have hrec := ih h
      rw [List.count_cons_of_ne (fun he => ha he.symm),
        List.count_cons_of_ne (fun he => ha he.symm), hrec]

theorem placeFirst_count_other (t u : TileState) (l : List TileState)
    (hut : u ≠ t) (hue : u ≠ TileState.Empty) :
    (placeFirst t l).count u = l.count u := by
  induction l with
  | nil => rfl
  | cons a rest ih =>
    by_cases ha : a = TileState.Empty
    · subst ha
      rw [placeFirst, if_pos rfl]
      rw [List.count_cons_of_ne hut, List.count_cons_of_ne hue]
    · rw [placeFirst, if_neg ha]
      by_cases hua : u = a
      · subst hua
        rw [List.count_cons_self, List.count_cons_self, ih]
      · rw [List.count_cons_of_ne hua, List.count_cons_of_ne hua, ih]

theorem placeFirst_getElem? (t : TileState) (l : List TileState) (i : Nat) :
    (placeFirst t l)[i]? = l[i]? ∨
      ((placeFirst t l)[i]? = some t ∧ l[i]? = some TileState.Empty) := by
  induction l generalizing i with
  | nil => left; rfl
  | cons a rest ih =>
    by_cases ha : a = TileState.Empty
    · subst ha
      rw [placeFirst, if_pos rfl]
      match i with
      | 0 => right; constructor <;> simp
      | i + 1 => left; simp
    · rw [placeFirst, if_neg ha]
      match i with
      | 0 => left; simp
      | i + 1 =>
        rcases ih i with hcase | hcase
        · left; simpa using hcase
        · right; simpa using hcase

theorem placeFirst_Wall_iff (t : TileState) (ht : t ≠ TileState.Wall)
    (l : List TileState) (i : Nat) :
    ((placeFirst t l)[i]? = some TileState.Wall ↔ l[i]? = some TileState.Wall) := by
  rcases placeFirst_getElem? t l i with hcase | hcase
  · rw [hcase]
  · rw [hcase.1, hcase.2]
    constructor
    · intro hx; cases hx; exact absurd rfl ht
    · intro hx; cases hx

theorem placeFirst_unique_empty (t : TileState) (l : List TileState)
    (h : l.count TileState.Empty = 1) (i : Nat)
    (hi : l[i]? = some TileState.Empty) :
    (placeFirst t l)[i]? = some t := by
  induction l generalizing i with
  | nil => simp at hi
  | cons a rest ih =>
    by_cases ha : a = TileState.Empty
    · subst ha
      rw [placeFirst, if_pos rfl]
      match i with
      | 0 => simp
      | i + 1 =>
        exfalso
        rw [List.count_cons] at h
        simp at h
        have hmem : TileState.Empty ∈ rest :=
          List.mem_iff_getElem?.mpr ⟨i, by simpa using hi⟩
        rw [← List.count_pos_iff] at hmem
        omega
    · rw [placeFirst, if_neg ha]
      match i with
      | 0 =>
        exfalso
        simp at hi
        exact ha hi
      | i + 1 =>
        rw [List.count_cons] at h
        have h' : rest.count TileState.Empty = 1 := by
          have hf : (a == TileState.Empty) = false := by simp [ha]
          rw [hf] at h
          simpa using h
        simpa using ih h' i (by simpa using hi)

theorem placeLast_length (t : TileState) (l : List TileState) :
    (placeLast t l).length = l.length := by
  rw [placeLast, List.length_reverse, placeFirst_length, List.length_reverse]

theorem placeLast_of_count_zero (t : TileState) (l : List TileState)
    (h : l.count TileState.Empty = 0) : placeLast t l = l := by
  rw [placeLast, placeFirst_of_count_zero t _ (by rw [List.count_reverse]; exact h),
    List.reverse_reverse]

theorem placeLast_count_self (t : TileState) (l : List TileState)
    (ht : t ≠ TileState.Empty) (h : 0 < l.count TileState.Empty) :
    (placeLast t l).count t = l.count t + 1 := by
  rw [placeLast, List.count_reverse,
    placeFirst_count_self t _ ht (by rw [List.count_reverse]; exact h),
    List.count_reverse]

theorem placeLast_count_empty (t : TileState) (l : List TileState)
    (ht : t ≠ TileState.Empty) (h : 0 < l.count TileState.Empty) :
    (placeLast t l).count TileState.Empty + 1 = l.count TileState.Empty := by
  rw [placeLast, List.count_reverse,
    placeFirst_count_empty t _ ht (by rw [List.count_reverse]; exact h),
    List.count_reverse]

theorem placeLast_count_other (t u : TileState) (l : List TileState)
    (hut : u ≠ t) (hue : u ≠ TileState.Empty) :
    (placeLast t l).count u = l.count u := by
  rw [placeLast, List.count_reverse, placeFirst_count_other t u _ hut hue,
    List.count_reverse]

theorem placeLast_Wall_iff (t : TileState) (ht : t ≠ TileState.Wall)
    (l : List TileState) (i : Nat) :
    ((placeLast t l)[i]? = some TileState.Wall ↔ l[i]? = some TileState.Wall) := by
  by_cases hi : i < l.length
  · have hlen1 : i < (placeFirst t l.reverse).length := by
      rw [placeFirst_length, List.length_reverse]; exact hi
    rw [placeLast, List.getElem?_reverse (by rwa [placeFirst_length, List.length_reverse])]
    rw [placeFirst_length, List.length_reverse]
    rw [placeFirst_Wall_iff t ht]
    rw [List.getElem?_reverse (by omega)]
    have : l.length - 1 - (l.length - 1 - i) = i := by omega
    rw [this]
  · have h1 : l[i]? = none := List.getElem?_eq_none (by omega)
    have h2 : (placeLast t l)[i]? = none := by
      apply List.getElem?_eq_none
      rw [placeLast_length]
      omega
    rw [h1, h2]

theorem placeStartEnd_length (l : List TileState) :
    (placeStartEnd l).length = l.length := by
  rw [placeStartEnd, placeLast_length, placeFirst_length]

theorem placeStartEnd_Wall_iff (l : List TileState) (i : Nat) :
    ((placeStartEnd l)[i]? = some TileState.Wall ↔ l[i]? = some TileState.Wall) := by
  rw [placeStartEnd, placeLast_Wall_iff TileState.End (by simp),
    placeFirst_Wall_iff TileState.Start (by simp)]

end Maze

/-! ## The instrumented loop projects onto the plain one -/

theorem Maze.populateLoopT_proj {σ : Type} (ops : RngOps σ) :
    ∀ (fuel : Nat) (m : Maze) (stack : List (Nat × Nat)) (s : σ)
      (log : List (Nat × Nat)) (bad : Nat),
      (Maze.populateLoopT ops fuel m stack s log bad).map (fun r => (r.1, r.2.1)) =
        Maze.populateLoop ops fuel m stack s := by
  intro fuel
  induction fuel with
  | zero => intro m stack s log bad; rfl
  | succ fuel ih =>
    intro m stack s log bad
    match stack with
    | [] => rfl
    | (x, y) :: rest =>
      rw [Maze.populateLoopT, Maze.populateLoop]
      by_cases hsome : (m.data.get x y).isSome = true
      · simp only [hsome, if_true]
        cases hfind : (ops.shuffle s (neighboursOf x y)).1.find?
            (fun c => m.is_valid_neighbour c.1 c.2.1 c.2.2) with
        | none => exact ih _ _ _ _ _
        | some cand =>
          obtain ⟨nx, ny, d⟩ := cand
          exact ih _ _ _ _ _
      · simp only [hsome, if_false, Bool.false_eq_true]
        exact ih _ _ _ _ _

theorem Maze.populateT_proj {σ : Type} (ops : RngOps σ) (m : Maze) (s : σ) :
    (Maze.populateT ops m s).map (fun r => (r.1, r.2.1)) =
      Maze.populate ops m s := by
  cases hg1 : ops.genRange s m.width with
  | none => simp [Maze.populateT, Maze.populate, hg1]
  | some p1 =>
    obtain ⟨sx, s1⟩ := p1
    cases hg2 : ops.genRange s1 m.height with
    | none => simp [Maze.populateT, Maze.populate, hg1, hg2]
    | some p2 =>
      obtain ⟨sy, s2⟩ := p2
      have hp := Maze.populateLoopT_proj ops (2 * (m.width * m.height) + 1)
        { m with visited := m.visited.set sx sy true } [(sx, sy)] s2 [(sx, sy)]
        (if sx < m.visited.rows ∧ sy < m.visited.cols then 0 else 1)
      cases hloop : Maze.populateLoopT ops (2 * (m.width * m.height) + 1)
          { m with visited := m.visited.set sx sy true } [(sx, sy)] s2 [(sx, sy)]
          (if sx < m.visited.rows ∧ sy < m.visited.cols then 0 else 1) with
      | none =>
        rw [hloop] at hp
        have hplain : Maze.populateLoop ops (2 * (m.width * m.height) + 1)
            { m with visited := m.visited.set sx sy true } [(sx, sy)] s2 = none := by
          rw [← hp]; rfl
        simp [Maze.populateT, Maze.populate, hg1, hg2, hloop, hplain]
      | some r =>
        obtain ⟨m2, s3, log, bad⟩ := r
        rw [hloop] at hp
        have hplain : Maze.populateLoop ops (2 * (m.width * m.height) + 1)
            { m with visited := m.visited.set sx sy true } [(sx, sy)] s2 =
            some (m2, s3) := by
          rw [← hp]; rfl
        simp [Maze.populateT, Maze.populate, hg1, hg2, hloop, hplain]

/-! ## `populate` on a fresh maze: the assembled specification -/

theorem Maze.populateT_new_spec {σ : Type} (ops : RngOps σ) (w h : Nat) (s : σ)
    (hgen : ∀ t n, 0 < n → (ops.genBelow t n).1 < n)
    (hw : 0 < w) (hh : 0 < h) :
    ∃ (m2 : Maze) (s' : σ) (log : List (Nat × Nat)),
      Maze.populateT ops (Maze.new w h) s =
        some ({ m2 with
                  data := { m2.data with data := Maze.placeStartEnd m2.data.data } },
              s', log, 0) ∧
      m2.width = w ∧ m2.height = h ∧ m2.DimsOk ∧ m2.Carved ∧
      (∀ p ∈ log, m2.visited.get p.1 p.2 = some true) ∧ log.Nodup ∧
      log.length + m2.unvisitedCount = w * h ∧
      (∀ u ∈ m2.data.data, u = TileState.Wall ∨ u = TileState.Empty) ∧
      (∀ p ∈ log, p.1 < w ∧ p.2 < h) := by
  have hsx : (ops.genBelow s w).1 < w := hgen s w hw
  have hsy : (ops.genBelow (ops.genBelow s w).2 h).1 < h :=
    hgen (ops.genBelow s w).2 h hh
  set sx := (ops.genBelow s w).1 with hsx_def
  set s1 := (ops.genBelow s w).2 with hs1_def
  set sy := (ops.genBelow s1 h).1 with hsy_def
  set s2 := (ops.genBelow s1 h).2 with hs2_def
  have hg1 : ops.genRange s (Maze.new w h).width = some (sx, s1) := by
    rw [RngOps.genRange, if_neg (by show ¬(w = 0); omega)]
    rfl
  have hg2 : ops.genRange s1 (Maze.new w h).height = some (sy, s2) := by
    rw [RngOps.genRange, if_neg (by show ¬(h = 0); omega)]
    rfl
  set m1 : Maze :=
    { Maze.new w h with visited := (Maze.new w h).visited.set sx sy true } with hm1
  have hvwf0 : (Maze.new w h).visited.Wf := by
    simp [Maze.new, Grid.init, Grid.Wf]
  have hdwf0 : (Maze.new w h).data.Wf := by
    simp [Maze.new, Grid.new, Grid.init, Grid.Wf]
  have hvget : (Maze.new w h).visited.get sx sy = some false := by
    show (Grid.init Bool w h false).get sx sy = some false
    rw [Grid.get_init, if_pos ⟨hsx, hsy⟩]
  have hdims1 : m1.DimsOk :=
    ⟨rfl, rfl, hdwf0, rfl, rfl, Grid.wf_set hvwf0 sx sy true⟩
  have hseedvis : m1.visited.get sx sy = some true :=
    Grid.get_set_self hvwf0 hsx hsy true
  have hstack1 : m1.StackOk [(sx, sy)] := by
    intro p hp
    simp at hp
    subst hp
    exact hseedvis
  have hcarved1 : m1.Carved := by
    intro a b hnw
    exfalso
    have hshape : m1.data.get a b = (Grid.init TileState w h default).get a b := rfl
    rw [hshape, Grid.get_init] at hnw
    by_cases hin : a < w ∧ b < h
    · rw [if_pos hin] at hnw
      simp [Maze.nonWall] at hnw
    · rw [if_neg hin] at hnw
      simp [Maze.nonWall] at hnw
  have hu1 : m1.unvisitedCount + 1 = w * h := by
    have hc := Grid.count_false_set_true hvget
    have h2 : (Grid.init Bool w h false).data.count false = w * h := by
      simp [Grid.init, List.count_replicate]
    show ((Maze.new w h).visited.set sx sy true).data.count false + 1 = w * h
    rw [hc]
    exact h2
  obtain ⟨m2, s', log, heq, hw2, hh2, hdims2, hcarved2, hmono, hlog2, hnd2, hcnt2, hdata2⟩ :=
    Maze.populateLoopT_spec ops (2 * (w * h) + 1) m1 [(sx, sy)] s2 [(sx, sy)] 0
      hdims1 hstack1 hcarved1 hstack1 (List.nodup_singleton _)
      (by simp; omega)
  have hW : (Maze.new w h).width = w := rfl
  have hH : (Maze.new w h).height = h := rfl
  refine ⟨m2, s', log, ?_, by rw [hw2]; exact rfl, by rw [hh2]; exact rfl,
    hdims2, hcarved2, hlog2, hnd2, ?_, ?_, ?_⟩
  · simp only [Maze.populateT, hg1, hg2]
    rw [← hm1]
    have hseed : (if sx < (Maze.new w h).visited.rows && sy < (Maze.new w h).visited.cols
        then (0 : Nat) else 1) = 0 := by
      have h1 : sx < (Maze.new w h).visited.rows := hsx
      have h2 : sy < (Maze.new w h).visited.cols := hsy
      simp [h1, h2]
    rw [hseed, hW, hH, heq]
  · rw [hcnt2]
    show 1 + m1.unvisitedCount = w * h
    omega
  · intro u hu
    obtain ⟨i, hi⟩ := List.mem_iff_getElem?.mp hu
    rcases hdata2 i with hcase | hcase
    · rw [hi] at hcase
      have hrep : m1.data.data = List.replicate (w * h) TileState.Wall := rfl
      rw [hrep, List.getElem?_replicate] at hcase
      by_cases hiwh : i < w * h
      · rw [if_pos hiwh] at hcase
        cases hcase.symm
        left; rfl
      · rw [if_neg hiwh] at hcase
        cases hcase.symm
    · rw [hi] at hcase
      cases hcase.symm
      right; rfl
  · intro p hp
    have hvis := hlog2 p hp
    have hb := Grid.get_some_bounds hvis
    obtain ⟨_, _, _, hvr2, hvc2, _⟩ := hdims2
    have hrw : m2.visited.rows = w := by rw [hvr2, hw2]; exact rfl
    have hcw : m2.visited.cols = h := by rw [hvc2, hh2]; exact rfl
    exact ⟨hrw ▸ hb.1, hcw ▸ hb.2⟩

theorem Maze.populate_new_spec {σ : Type} (ops : RngOps σ) (w h : Nat) (s : σ)
    (hgen : ∀ t n, 0 < n → (ops.genBelow t n).1 < n)
    (hw : 0 < w) (hh : 0 < h) :
    ∃ (m2 : Maze) (s' : σ),
      Maze.populate ops (Maze.new w h) s =
        some ({ m2 with
                  data := { m2.data with data := Maze.placeStartEnd m2.data.data } },
              s') ∧
      m2.width = w ∧ m2.height = h ∧ m2.DimsOk ∧ m2.Carved ∧
      (∀ u ∈ m2.data.data, u = TileState.Wall ∨ u = TileState.Empty) := by
  obtain ⟨m2, s', log, heq, hw2, hh2, hdims2, hcarved2, _, _, _, hdata2, _⟩ :=
    Maze.populateT_new_spec ops w h s hgen hw hh
  refine ⟨m2, s', ?_, hw2, hh2, hdims2, hcarved2, hdata2⟩
  rw [← Maze.populateT_proj, heq]
  rfl

theorem Maze.populate_pos_of_some {σ : Type} (ops : RngOps σ) {w h : Nat}
    {s : σ} {r : Maze × σ}
    (hrun : Maze.populate ops (Maze.new w h) s = some r) : 0 < w ∧ 0 < h := by
  by_cases hw0 : w = 0
  · exfalso
    rw [Maze.populate] at hrun
    have hwz : ops.genRange s (Maze.new w h).width = none := by
      rw [RngOps.genRange, if_pos]
      exact hw0
    rw [hwz] at hrun
    cases hrun
  · by_cases hh0 : h = 0
    · exfalso
      rw [Maze.populate] at hrun
      have hwnz : ops.genRange s (Maze.new w h).width =
          some (ops.genBelow s w) := by
        show (if w = 0 then none else some (ops.genBelow s w)) =
          some (ops.genBelow s w)
        rw [if_neg hw0]
      rw [hwnz] at hrun
      have hhz : ops.genRange (ops.genBelow s w).2 (Maze.new w h).height = none := by
        rw [RngOps.genRange, if_pos]
        exact hh0
      simp only [hhz] at hrun
      cases hrun
    · exact ⟨Nat.pos_of_ne_zero hw0, Nat.pos_of_ne_zero hh0⟩

/-! ## Determinism as a bisimulation between random sources -/

theorem Maze.populateLoop_bisim {σ₁ σ₂ : Type} (ops₁ : RngOps σ₁)
    (ops₂ : RngOps σ₂) (R : σ₁ → σ₂ → Prop)
    (hshuf : ∀ s₁ s₂ l, R s₁ s₂ →
      (ops₁.shuffle s₁ l).1 = (ops₂.shuffle s₂ l).1 ∧
        R (ops₁.shuffle s₁ l).2 (ops₂.shuffle s₂ l).2) :
    ∀ (fuel : Nat) (m : Maze) (stack : List (Nat × Nat)) (s₁ : σ₁) (s₂ : σ₂),
      R s₁ s₂ →
      (Maze.populateLoop ops₁ fuel m stack s₁ = none ∧
        Maze.populateLoop ops₂ fuel m stack s₂ = none) ∨
      (∃ m' s₁' s₂', Maze.populateLoop ops₁ fuel m stack s₁ = some (m', s₁') ∧
        Maze.populateLoop ops₂ fuel m stack s₂ = some (m', s₂') ∧ R s₁' s₂') := by
  intro fuel
  induction fuel with
  | zero =>
    intro m stack s₁ s₂ _
    left
    exact ⟨rfl, rfl⟩
  | succ fuel ih =>
    intro m stack s₁ s₂ hR
    match stack with
    | [] =>
      right
      exact ⟨m, s₁, s₂, rfl, rfl, hR⟩
    | (x, y) :: rest =>
      obtain ⟨hsl, hsr⟩ := hshuf s₁ s₂ (neighboursOf x y) hR
      rw [Maze.populateLoop, Maze.populateLoop]
      rw [← hsl]
      by_cases hsome : (m.data.get x y).isSome = true
      · simp only [hsome, if_true]
        cases hfind : (ops₁.shuffle s₁ (neighboursOf x y)).1.find?
            (fun c => m.is_valid_neighbour c.1 c.2.1 c.2.2) with
        | none => exact ih _ _ _ _ hsr
        | some cand =>
          obtain ⟨nx, ny, d⟩ := cand
          exact ih _ _ _ _ hsr
      · simp only [hsome, if_false, Bool.false_eq_true]
        exact ih _ _ _ _ hsr

/-! ## The neighbour-validity rule against its spec-side formulations -/

theorem satShift_one (n : Nat) : satShift n 1 = n + 1 := by
  norm_num [satShift]

theorem satShift_negone (n : Nat) : satShift n (-1) = n - 1 := by
  norm_num [satShift]

theorem satShift_zero (n : Nat) : satShift n 0 = n := by
  norm_num [satShift]

theorem is_valid_neighbour_eq_claimValidSat (m : Maze) (x y : Nat)
    (d : Direction) :
    m.is_valid_neighbour x y d = claimValidSat m x y d := by
  cases d
  all_goals
    simp [claimValidSat, satNeighbourCount, offsets8, notFromEdge, travelVec,
      satShift_one, satShift_negone, satShift_zero, Maze.is_valid_neighbour,
      List.filter]
  all_goals
    generalize Maze.nonWall (m.data.get (x + 1) y) = b1
    generalize Maze.nonWall (m.data.get x (y + 1)) = b2
    generalize Maze.nonWall (m.data.get (x + 1) (y + 1)) = b3
    generalize Maze.nonWall (m.data.get (x - 1) y) = b4
    generalize Maze.nonWall (m.data.get (x - 1) (y + 1)) = b5
    generalize Maze.nonWall (m.data.get x (y - 1)) = b6
    generalize Maze.nonWall (m.data.get (x + 1) (y - 1)) = b7
    generalize Maze.nonWall (m.data.get (x - 1) (y - 1)) = b8
    generalize m.visited.get x y = v
    revert b1 b2 b3 b4 b5 b6 b7 b8 v
    decide

/-! ## Start/End counts after both scans -/

theorem Maze.count_start_zero {l : List TileState}
    (hl : ∀ u ∈ l, u = TileState.Wall ∨ u = TileState.Empty) :
    l.count TileState.Start = 0 := by
  rw [List.count_eq_zero]
  intro hmem
  rcases hl _ hmem with hcase | hcase <;> cases hcase

theorem Maze.count_end_zero {l : List TileState}
    (hl : ∀ u ∈ l, u = TileState.Wall ∨ u = TileState.Empty) :
    l.count TileState.End = 0 := by
  rw [List.count_eq_zero]
  intro hmem
  rcases hl _ hmem with hcase | hcase <;> cases hcase

theorem Maze.placeStartEnd_of_no_empty {l : List TileState}
    (h0 : l.count TileState.Empty = 0) : Maze.placeStartEnd l = l := by
  rw [Maze.placeStartEnd, Maze.placeFirst_of_count_zero _ _ h0,
    Maze.placeLast_of_count_zero _ _ h0]

theorem Maze.placeStartEnd_single_empty {l : List TileState}
    (hl : ∀ u ∈ l, u = TileState.Wall ∨ u = TileState.Empty)
    (h1 : l.count TileState.Empty = 1) :
    (Maze.placeStartEnd l).count TileState.Start = 1 ∧
    (Maze.placeStartEnd l).count TileState.End = 0 ∧
    (Maze.placeStartEnd l).count TileState.Empty = 0 := by
  have hpos : 0 < l.count TileState.Empty := by omega
  have hce : (Maze.placeFirst TileState.Start l).count TileState.Empty = 0 := by
    have := Maze.placeFirst_count_empty TileState.Start l (by simp) hpos
    omega
  have hps : Maze.placeStartEnd l = Maze.placeFirst TileState.Start l := by
    rw [Maze.placeStartEnd, Maze.placeLast_of_count_zero _ _ hce]
  rw [hps]
  refine ⟨?_, ?_, hce⟩
  · rw [Maze.placeFirst_count_self TileState.Start l (by simp) hpos,
      Maze.count_start_zero hl]
  · rw [Maze.placeFirst_count_other TileState.Start TileState.End l (by simp) (by simp),
      Maze.count_end_zero hl]

theorem Maze.placeStartEnd_two_empty {l : List TileState}
    (hl : ∀ u ∈ l, u = TileState.Wall ∨ u = TileState.Empty)
    (h2 : 2 ≤ l.count TileState.Empty) :
    (Maze.placeStartEnd l).count TileState.Start = 1 ∧
    (Maze.placeStartEnd l).count TileState.End = 1 := by
  have hpos : 0 < l.count TileState.Empty := by omega
  have hce : 0 < (Maze.placeFirst TileState.Start l).count TileState.Empty := by
    have := Maze.placeFirst_count_empty TileState.Start l (by simp) hpos
    omega
  constructor
  · rw [Maze.placeStartEnd,
      Maze.placeLast_count_other TileState.End TileState.Start _ (by simp) (by simp),
      Maze.placeFirst_count_self TileState.Start l (by simp) hpos,
      Maze.count_start_zero hl]
  · rw [Maze.placeStartEnd,
      Maze.placeLast_count_self TileState.End _ (by simp) hce,
      Maze.placeFirst_count_other TileState.Start TileState.End l (by simp) (by simp),
      Maze.count_end_zero hl]

theorem Maze.end_mem_placeStartEnd {l : List TileState}
    (hl : ∀ u ∈ l, u = TileState.Wall ∨ u = TileState.Empty)
    (hEnd : TileState.End ∈ Maze.placeStartEnd l) :
    2 ≤ l.count TileState.Empty ∧ TileState.Start ∈ Maze.placeStartEnd l := by
  rcases Nat.lt_or_ge (l.count TileState.Empty) 2 with hlt | hge
  · exfalso
    interval_cases hc : l.count TileState.Empty
    · rw [Maze.placeStartEnd_of_no_empty hc] at hEnd
      rcases hl _ hEnd with hcase | hcase <;> cases hcase
    · obtain ⟨_, hE0, _⟩ := Maze.placeStartEnd_single_empty hl hc
      rw [List.count_eq_zero] at hE0
      exact hE0 hEnd
  · obtain ⟨hS1, _⟩ := Maze.placeStartEnd_two_empty hl hge
    refine ⟨hge, ?_⟩
    rw [← List.count_pos_iff, hS1]
    omega

theorem Maze.populate_some_struct {σ : Type} (ops : RngOps σ) {w h : Nat} {s : σ}
    {m' : Maze} {s' : σ}
    (hgen : ∀ t n, 0 < n → (ops.genBelow t n).1 < n)
    (hrun : Maze.populate ops (Maze.new w h) s = some (m', s')) :
    ∃ m2 : Maze,
      m'.width = w ∧ m'.height = h ∧
      m'.data.rows = w ∧ m'.data.cols = h ∧ m'.data.Wf ∧
      m'.visited = m2.visited ∧
      m'.data.data = Maze.placeStartEnd m2.data.data ∧
      m2.DimsOk ∧ m2.Carved ∧ m2.width = w ∧ m2.height = h ∧
      (∀ u ∈ m2.data.data, u = TileState.Wall ∨ u = TileState.Empty) := by
  obtain ⟨hposw, hposh⟩ := Maze.populate_pos_of_some ops hrun
  obtain ⟨m2, s'', heq, hw2, hh2, hdims2, hcarved2, hWE⟩ :=
    Maze.populate_new_spec ops w h s hgen hposw hposh
  have hsome := hrun.symm.trans heq
  have hpair := Option.some.inj hsome
  have hm : m' =
      { m2 with data := { m2.data with data := Maze.placeStartEnd m2.data.data } } :=
    congrArg Prod.fst hpair
  obtain ⟨hdr2, hdc2, hdwf2, hvr2, hvc2, hvwf2⟩ := hdims2
  refine ⟨m2, ?_, ?_, ?_, ?_, ?_, ?_, ?_,
    ⟨hdr2, hdc2, hdwf2, hvr2, hvc2, hvwf2⟩,
    hcarved2, hw2, hh2, hWE⟩
  · rw [hm]; exact hw2
  · rw [hm]; exact hh2
  · rw [hm]
    show m2.data.rows = w
    rw [hdr2, hw2]
  · rw [hm]
    show m2.data.cols = h
    rw [hdc2, hh2]
  · rw [hm]
    show (Maze.placeStartEnd m2.data.data).length = m2.data.rows * m2.data.cols
    rw [Maze.placeStartEnd_length]
    exact hdwf2
  · rw [hm]
  · rw [hm]

theorem Maze.nonWall_iff {o : Option TileState} :
    Maze.nonWall o = true ↔ ∃ t, o = some t ∧ t ≠ TileState.Wall := by
  cases o with
  | none => simp [Maze.nonWall]
  | some t => cases t <;> simp [Maze.nonWall]

/-! ## The claims -/

/-- C1, counterexample: on a 1×1 maze the forward scan turns the single
`Empty` cell into `Start`; the reverse scan then finds no `Empty` cell, so
the cell's final state is `Start` — not `End` as the claim states. -/
theorem C1_counterexample :
    (Maze.populate cOps (Maze.new 1 1) 0).map (fun r => r.1.data.data) =
      some [TileState.Start] ∧ TileState.Start ≠ TileState.End := by
  constructor
  · rfl
  · decide

/-- C1 (amended): if after the carving loop the tile grid holds exactly one
`Empty` cell (all other cells `Wall`), the forward scan sets that cell to
`Start` and the reverse scan finds no remaining `Empty`, so the cell's final
state is `Start` and no `End` is placed; in particular for width=1,
height=1 the single cell ends as `Start`. -/
theorem C1_single_empty_ends_start (l : List TileState) (i : Nat)
    (hl : ∀ u ∈ l, u = TileState.Wall ∨ u = TileState.Empty)
    (h1 : l.count TileState.Empty = 1)
    (hi : l[i]? = some TileState.Empty) :
    (Maze.placeStartEnd l)[i]? = some TileState.Start ∧
    (Maze.placeStartEnd l).count TileState.Start = 1 ∧
    (Maze.placeStartEnd l).count TileState.End = 0 := by
  obtain ⟨hS, hE, hEm⟩ := Maze.placeStartEnd_single_empty hl h1
  refine ⟨?_, hS, hE⟩
  have hce : (Maze.placeFirst TileState.Start l).count TileState.Empty = 0 := by
    have := Maze.placeFirst_count_empty TileState.Start l (by simp) (by omega)
    omega
  rw [Maze.placeStartEnd, Maze.placeLast_of_count_zero _ _ hce]
  exact Maze.placeFirst_unique_empty TileState.Start l h1 i hi

/-- C1 witness: the amended statement at the concrete one-cell grid. -/
theorem C1_witness :
    (Maze.placeStartEnd [TileState.Empty])[0]? = some TileState.Start ∧
    (Maze.placeStartEnd [TileState.Empty]).count TileState.Start = 1 ∧
    (Maze.placeStartEnd [TileState.Empty]).count TileState.End = 0 :=
  C1_single_empty_ends_start [TileState.Empty] 0 (by decide) (by decide) (by decide)

/-- C4, counterexample: on a 1×1 maze one cell is carved (no `Wall`
remains), yet the final grid has one `Start` and zero `End` tiles,
contradicting "exactly one `Start` and exactly one `End` whenever at least
one cell was carved". -/
theorem C4_counterexample :
    (Maze.populate cOps (Maze.new 1 1) 0).map
        (fun r => (r.1.data.data.count TileState.Start,
                   r.1.data.data.count TileState.End,
                   r.1.data.data.count TileState.Wall)) = some (1, 0, 0) := by
  rfl

/-- C4 (amended): after `populate` on a fresh maze, if at least two cells
were carved the grid has exactly one `Start` and exactly one `End`; if
exactly one cell was carved it has one `Start` and no `End`; if no cell was
carved it has neither. -/
theorem C4_start_end_counts {σ : Type} (ops : RngOps σ) {w h : Nat} {s : σ}
    {m' : Maze} {s' : σ}
    (hgen : ∀ t n, 0 < n → (ops.genBelow t n).1 < n)
    (hrun : Maze.populate ops (Maze.new w h) s = some (m', s')) :
    (m'.data.data.count TileState.Start = 1 ∧
      m'.data.data.count TileState.End = 1) ∨
    (m'.data.data.count TileState.Start = 1 ∧
      m'.data.data.count TileState.End = 0 ∧
      m'.data.data.count TileState.Empty = 0) ∨
    (m'.data.data.count TileState.Start = 0 ∧
      m'.data.data.count TileState.End = 0 ∧
      m'.data.data.count TileState.Empty = 0) := by
  obtain ⟨m2, _, _, _, _, _, _, hdata, _, _, _, _, hWE⟩ :=
    Maze.populate_some_struct ops hgen hrun
  rw [hdata]
  rcases Nat.lt_or_ge (m2.data.data.count TileState.Empty) 2 with hlt | hge
  · interval_cases hc : m2.data.data.count TileState.Empty
    · right; right
      rw [Maze.placeStartEnd_of_no_empty hc]
      exact ⟨Maze.count_start_zero hWE, Maze.count_end_zero hWE, hc⟩
    · right; left
      obtain ⟨hS, hE, hEm⟩ := Maze.placeStartEnd_single_empty hWE hc
      exact ⟨hS, hE, hEm⟩
  · left
    exact Maze.placeStartEnd_two_empty hWE hge

/-- C4 witness: the amended statement at a concrete 2×2 run (two or more
cells carved: exactly one `Start` and one `End`). -/
theorem C4_witness :
    (([TileState.Start, TileState.Empty, TileState.Wall,
        TileState.End].count TileState.Start = 1 ∧
      [TileState.Start, TileState.Empty, TileState.Wall,
        TileState.End].count TileState.End = 1) ∨
     ([TileState.Start, TileState.Empty, TileState.Wall,
        TileState.End].count TileState.Start = 1 ∧
      [TileState.Start, TileState.Empty, TileState.Wall,
        TileState.End].count TileState.End = 0 ∧
      [TileState.Start, TileState.Empty, TileState.Wall,
        TileState.End].count TileState.Empty = 0) ∨
     ([TileState.Start, TileState.Empty, TileState.Wall,
        TileState.End].count TileState.Start = 0 ∧
      [TileState.Start, TileState.Empty, TileState.Wall,
        TileState.End].count TileState.End = 0 ∧
      [TileState.Start, TileState.Empty, TileState.Wall,
        TileState.End].count TileState.Empty = 0)) :=
  @C4_start_end_counts Nat cOps 2 2 0
    (Maze.mk 2 2 ⟨2, 2, [TileState.Start, TileState.Empty, TileState.Wall,
      TileState.End]⟩ ⟨2, 2, [true, true, false, true]⟩) 7
    (fun _ _ hn => hn) (by rfl)

/-- C10: whenever the final grid holds an `End` tile, it also holds a
`Start` tile at a different position (the reverse scan assigns `End` only
when at least two cells were carved, so `Start` and `End` never share a
cell). -/
theorem C10_end_distinct_from_start {σ : Type} (ops : RngOps σ) {w h : Nat}
    {s : σ} {m' : Maze} {s' : σ}
    (hgen : ∀ t n, 0 < n → (ops.genBelow t n).1 < n)
    (hrun : Maze.populate ops (Maze.new w h) s = some (m', s'))
    (hEnd : TileState.End ∈ m'.data.data) :
    TileState.Start ∈ m'.data.data ∧
    ∃ i j : Nat, i ≠ j ∧ m'.data.data[i]? = some TileState.Start ∧
      m'.data.data[j]? = some TileState.End := by
  obtain ⟨m2, _, _, _, _, _, _, hdata, _, _, _, _, hWE⟩ :=
    Maze.populate_some_struct ops hgen hrun
  rw [hdata] at hEnd ⊢
  obtain ⟨_, hStart⟩ := Maze.end_mem_placeStartEnd hWE hEnd
  refine ⟨hStart, ?_⟩
  obtain ⟨i, hiS⟩ := List.mem_iff_getElem?.mp hStart
  obtain ⟨j, hjE⟩ := List.mem_iff_getElem?.mp hEnd
  refine ⟨i, j, ?_, hiS, hjE⟩
  intro hij
  rw [hij, hjE] at hiS
  cases hiS

/-- C10 witness: the statement at a concrete 2×2 run whose grid is
`[Start, Empty, Wall, End]`. -/
theorem C10_witness :
    TileState.Start ∈ [TileState.Start, TileState.Empty, TileState.Wall,
      TileState.End] ∧
    ∃ i j : Nat, i ≠ j ∧
      [TileState.Start, TileState.Empty, TileState.Wall,
        TileState.End][i]? = some TileState.Start ∧
      [TileState.Start, TileState.Empty, TileState.Wall,
        TileState.End][j]? = some TileState.End :=
  @C10_end_distinct_from_start Nat cOps 2 2 0
    (Maze.mk 2 2 ⟨2, 2, [TileState.Start, TileState.Empty, TileState.Wall,
      TileState.End]⟩ ⟨2, 2, [true, true, false, true]⟩) 7
    (fun _ _ hn => hn) (by rfl) (by decide)

/-- C2, counterexample: at the edge of the grid the source computes its
surrounding coordinates with saturating subtraction, so for candidate
`(0,0)` the cell's own tile stands in for the out-of-grid west column and is
counted.  On a 2×2 maze whose tile `(0,0)` is `Empty` and unvisited,
`is_valid_neighbour 0 0 North` returns `false` although the cell is
unvisited and the claim's count over the true in-grid surrounding cells is
zero. -/
theorem C2_counterexample :
    Maze.is_valid_neighbour mazeC2 0 0 Direction.North = false ∧
    claimValidExact mazeC2 0 0 Direction.North = true := by
  decide

/-- C2 (amended): `is_valid_neighbour x y d` returns true iff cell `(x,y)`
is unvisited and the count of the eight surrounding positions — computed
with saturating subtraction, so at `x = 0` or `y = 0` the candidate's own
cell (and duplicated orthogonal cells) stand in for out-of-grid west/south
cells — that are in-grid and not `Wall`, excluding the edge the move came
from and its two flanking diagonals, is exactly zero. -/
theorem C2_valid_neighbour_characterisation (m : Maze) (x y : Nat)
    (d : Direction) :
    m.is_valid_neighbour x y d = true ↔
      (satNeighbourCount m x y d = 0 ∧ m.visited.get x y = some false) := by
  rw [is_valid_neighbour_eq_claimValidSat]
  simp [claimValidSat, Bool.and_eq_true]

/-- C3: for any dimensions at least 2×2 and any random source, `populate`
terminates; every pushed coordinate (the seed plus each chosen neighbour)
is marked visited, no coordinate is pushed twice, the visited count grows
by exactly one per push and the number of pushes is bounded by
width×height. -/
theorem C3_populate_terminates {σ : Type} (ops : RngOps σ) (w h : Nat) (s : σ)
    (hgen : ∀ t n, 0 < n → (ops.genBelow t n).1 < n)
    (hw : 2 ≤ w) (hh : 2 ≤ h) :
    ∃ (m' : Maze) (s' : σ) (log : List (Nat × Nat)),
      Maze.populateT ops (Maze.new w h) s = some (m', s', log, 0) ∧
      log.Nodup ∧
      (∀ p ∈ log, m'.visited.get p.1 p.2 = some true) ∧
      log.length + m'.unvisitedCount = w * h ∧
      log.length ≤ w * h := by
  obtain ⟨m2, s', log, heq, hw2, hh2, hdims2, hcarved2, hlog, hnd, hcnt, hWE, hbounds⟩ :=
    Maze.populateT_new_spec ops w h s hgen (by omega) (by omega)
  refine ⟨_, s', log, heq, hnd, ?_, ?_, by omega⟩
  · intro p hp
    exact hlog p hp
  · show log.length + m2.unvisitedCount = w * h
    exact hcnt

/-- C3 witness: the statement at the concrete 2×2 run with the trivial
random source. -/
theorem C3_witness :
    ∃ (m' : Maze) (s' : Nat) (log : List (Nat × Nat)),
      Maze.populateT cOps (Maze.new 2 2) 0 = some (m', s', log, 0) ∧
      log.Nodup ∧
      (∀ p ∈ log, m'.visited.get p.1 p.2 = some true) ∧
      log.length + m'.unvisitedCount = 2 * 2 ∧
      log.length ≤ 2 * 2 :=
  C3_populate_terminates cOps 2 2 0 (fun _ _ hn => hn) (by decide) (by decide)

/-- C5: every coordinate ever pushed onto the stack lies inside the grid,
so the defensive out-of-bounds branch is never taken, the two
`get_mut(..).unwrap()` calls cannot fail, and the two unchecked
visited-grid writes are in bounds: the instrumented loop's unsafe-event
counter is zero. -/
theorem C5_no_unsafe_events {σ : Type} (ops : RngOps σ) {w h : Nat} {s : σ}
    {m' : Maze} {s' : σ} {log : List (Nat × Nat)} {bad : Nat}
    (hgen : ∀ t n, 0 < n → (ops.genBelow t n).1 < n)
    (hrun : Maze.populateT ops (Maze.new w h) s = some (m', s', log, bad)) :
    bad = 0 ∧ ∀ p ∈ log, p.1 < w ∧ p.2 < h := by
  have hp : Maze.populate ops (Maze.new w h) s = some (m', s') := by
    rw [← Maze.populateT_proj, hrun]
    rfl
  obtain ⟨hposw, hposh⟩ := Maze.populate_pos_of_some ops hp
  obtain ⟨m2, s'', log₂, heq, _, _, _, _, _, _, _, _, hbounds⟩ :=
    Maze.populateT_new_spec ops w h s hgen hposw hposh
  have hpair := Option.some.inj (hrun.symm.trans heq)
  have hbad : bad = 0 := congrArg (fun r => r.2.2.2) hpair
  have hlogeq : log = log₂ := congrArg (fun r => r.2.2.1) hpair
  refine ⟨hbad, ?_⟩
  rw [hlogeq]
  exact hbounds

/-- C5 witness: the statement at the concrete 2×2 run. -/
theorem C5_witness :
    (0 : Nat) = 0 ∧ ∀ p ∈ [((0 : Nat), (0 : Nat)), (0, 1), (1, 1)],
      p.1 < 2 ∧ p.2 < 2 :=
  @C5_no_unsafe_events Nat cOps 2 2 0
    (Maze.mk 2 2 ⟨2, 2, [TileState.Start, TileState.Empty, TileState.Wall,
      TileState.End]⟩ ⟨2, 2, [true, true, false, true]⟩) 7
    [(0, 0), (0, 1), (1, 1)] 0 (fun _ _ hn => hn) (by rfl)

/-- C6: after `populate` on a fresh maze, every `Empty`/`Start`/`End` tile
belongs to a visited cell, and every unvisited cell still holds `Wall`
(only cells reached from the random start are carved). -/
theorem C6_carved_iff_visited {σ : Type} (ops : RngOps σ) {w h : Nat} {s : σ}
    {m' : Maze} {s' : σ}
    (hgen : ∀ t n, 0 < n → (ops.genBelow t n).1 < n)
    (hrun : Maze.populate ops (Maze.new w h) s = some (m', s')) :
    (∀ x y : Nat, Maze.nonWall (m'.data.get x y) = true →
      m'.visited.get x y = some true) ∧
    (∀ x y : Nat, m'.visited.get x y = some false →
      m'.data.get x y = some TileState.Wall) := by
  obtain ⟨m2, hW, hH, hdr, hdc, hwf, hvis, hdata, hdims2, hcarved2, hw2, hh2, hWE⟩ :=
    Maze.populate_some_struct ops hgen hrun
  obtain ⟨hdr2, hdc2, hdwf2, hvr2, hvc2, hvwf2⟩ := hdims2
  have hcoleq : m'.data.cols = m2.data.cols := by
    rw [hdc, hdc2, hh2]
  have part1 : ∀ x y : Nat, Maze.nonWall (m'.data.get x y) = true →
      m'.visited.get x y = some true := by
    intro x y hnw
    have hb : x < m'.data.rows ∧ y < m'.data.cols := by
      by_contra hcon
      rw [Grid.get, if_neg hcon] at hnw
      simp [Maze.nonWall] at hnw
    have hxr2 : x < m2.data.rows := by
      rw [hdr2, hw2, ← hdr]; exact hb.1
    have hyc2 : y < m2.data.cols := by
      rw [← hcoleq]; exact hb.2
    have hidx : m'.data.get x y =
        (Maze.placeStartEnd m2.data.data)[x * m2.data.cols + y]? := by
      rw [Grid.get, if_pos hb, hdata, hcoleq]
    have hlen2 : x * m2.data.cols + y < m2.data.data.length := by
      rw [hdwf2]; exact rowMajor_index_lt hxr2 hyc2
    have hn2 : Maze.nonWall (m2.data.get x y) = true := by
      rw [Grid.get, if_pos ⟨hxr2, hyc2⟩]
      cases hu : m2.data.data[x * m2.data.cols + y]? with
      | none =>
        rw [List.getElem?_eq_getElem hlen2] at hu
        cases hu
      | some u =>
        by_cases hWall : u = TileState.Wall
        · exfalso
          have hpw : (Maze.placeStartEnd m2.data.data)[x * m2.data.cols + y]? =
              some TileState.Wall :=
            (Maze.placeStartEnd_Wall_iff _ _).mpr (by rw [hu, hWall])
          rw [hidx, hpw] at hnw
          simp [Maze.nonWall] at hnw
        · rw [Maze.nonWall_iff]
          exact ⟨u, rfl, hWall⟩
    rw [hvis]
    exact hcarved2 x y hn2
  refine ⟨part1, ?_⟩
  intro x y hvf
  have hvb : x < m'.visited.rows ∧ y < m'.visited.cols := Grid.get_some_bounds hvf
  have hb' : x < m'.data.rows ∧ y < m'.data.cols := by
    constructor
    · rw [hdr]
      have hrw : m'.visited.rows = w := by rw [hvis, hvr2, hw2]
      rw [← hrw]; exact hvb.1
    · rw [hdc]
      have hcw : m'.visited.cols = h := by rw [hvis, hvc2, hh2]
      rw [← hcw]; exact hvb.2
  have hsome : (m'.data.get x y).isSome = true := Grid.get_isSome hwf hb'.1 hb'.2
  cases ht : m'.data.get x y with
  | none =>
    rw [ht] at hsome
    cases hsome
  | some t =>
    by_cases hWall : t = TileState.Wall
    · rw [hWall]
    · exfalso
      have hnw : Maze.nonWall (m'.data.get x y) = true := by
        rw [ht, Maze.nonWall_iff]
        exact ⟨t, rfl, hWall⟩
      have hvt := part1 x y hnw
      rw [hvt] at hvf
      cases hvf

/-- C6 witness: the statement at the concrete 2×2 run. -/
theorem C6_witness :
    (∀ x y : Nat, Maze.nonWall ((Maze.mk 2 2 ⟨2, 2, [TileState.Start,
        TileState.Empty, TileState.Wall, TileState.End]⟩
        ⟨2, 2, [true, true, false, true]⟩).data.get x y) = true →
      (Maze.mk 2 2 ⟨2, 2, [TileState.Start, TileState.Empty, TileState.Wall,
        TileState.End]⟩ ⟨2, 2, [true, true, false, true]⟩).visited.get x y =
        some true) ∧
    (∀ x y : Nat, (Maze.mk 2 2 ⟨2, 2, [TileState.Start, TileState.Empty,
        TileState.Wall, TileState.End]⟩
        ⟨2, 2, [true, true, false, true]⟩).visited.get x y = some false →
      (Maze.mk 2 2 ⟨2, 2, [TileState.Start, TileState.Empty, TileState.Wall,
        TileState.End]⟩ ⟨2, 2, [true, true, false, true]⟩).data.get x y =
        some TileState.Wall) :=
  @C6_carved_iff_visited Nat cOps 2 2 0
    (Maze.mk 2 2 ⟨2, 2, [TileState.Start, TileState.Empty, TileState.Wall,
      TileState.End]⟩ ⟨2, 2, [true, true, false, true]⟩) 7
    (fun _ _ hn => hn) (by rfl)

/-- C7: generation is deterministic — two runs of `populate` from equal
maze states, with random sources that yield the same outputs for the same
sequence of calls (formalised as a bisimulation relation between the two
source states), produce identical tile grids and hence identical output
images. -/
theorem C7_populate_deterministic {σ₁ σ₂ : Type} (ops₁ : RngOps σ₁)
    (ops₂ : RngOps σ₂) (R : σ₁ → σ₂ → Prop)
    (hgen : ∀ s₁ s₂ n, R s₁ s₂ →
      (ops₁.genBelow s₁ n).1 = (ops₂.genBelow s₂ n).1 ∧
        R (ops₁.genBelow s₁ n).2 (ops₂.genBelow s₂ n).2)
    (hshuf : ∀ s₁ s₂ l, R s₁ s₂ →
      (ops₁.shuffle s₁ l).1 = (ops₂.shuffle s₂ l).1 ∧
        R (ops₁.shuffle s₁ l).2 (ops₂.shuffle s₂ l).2)
    (m : Maze) (s₁ : σ₁) (s₂ : σ₂) (hR : R s₁ s₂) :
    (Maze.populate ops₁ m s₁).map (fun r => r.1) =
      (Maze.populate ops₂ m s₂).map (fun r => r.1) ∧
    (Maze.populate ops₁ m s₁).map (fun r => r.1.save_to_file) =
      (Maze.populate ops₂ m s₂).map (fun r => r.1.save_to_file) := by
  have key : (Maze.populate ops₁ m s₁ = none ∧ Maze.populate ops₂ m s₂ = none) ∨
      (∃ m' t₁ t₂, Maze.populate ops₁ m s₁ = some (m', t₁) ∧
        Maze.populate ops₂ m s₂ = some (m', t₂)) := by
    by_cases hw0 : m.width = 0
    · left
      constructor <;> simp [Maze.populate, RngOps.genRange, hw0]
    · by_cases hh0 : m.height = 0
      · left
        constructor <;> simp [Maze.populate, RngOps.genRange, hw0, hh0]
      · obtain ⟨he1, hr1⟩ := hgen s₁ s₂ m.width hR
        obtain ⟨he2, hr2⟩ :=
          hgen (ops₁.genBelow s₁ m.width).2 (ops₂.genBelow s₂ m.width).2
            m.height hr1
        rcases Maze.populateLoop_bisim ops₁ ops₂ R hshuf
            (2 * (m.width * m.height) + 1)
            { m with visited := (m.visited.set (ops₁.genBelow s₁ m.width).1
                ((ops₁.genBelow (ops₁.genBelow s₁ m.width).2 m.height).1) true) }
            [((ops₁.genBelow s₁ m.width).1,
              (ops₁.genBelow (ops₁.genBelow s₁ m.width).2 m.height).1)]
            (ops₁.genBelow (ops₁.genBelow s₁ m.width).2 m.height).2
            (ops₂.genBelow (ops₂.genBelow s₂ m.width).2 m.height).2 hr2 with
          hcase | hcase
        · obtain ⟨hn1, hn2⟩ := hcase
          left
          constructor
          · simp [Maze.populate, RngOps.genRange, hw0, hh0, hn1]
          · simp [Maze.populate, RngOps.genRange, hw0, hh0, ← he1, ← he2, hn2]
        · obtain ⟨m', t₁, t₂, hs1, hs2, _⟩ := hcase
          right
          refine ⟨{ m' with
              data := { m'.data with
                data := Maze.placeStartEnd m'.data.data } }, t₁, t₂, ?_, ?_⟩
          · simp [Maze.populate, RngOps.genRange, hw0, hh0, hs1]
          · simp [Maze.populate, RngOps.genRange, hw0, hh0, ← he1, ← he2, hs2]
  rcases key with ⟨hn1, hn2⟩ | ⟨m', t₁, t₂, hs1, hs2⟩
  · rw [hn1, hn2]
    exact ⟨rfl, rfl⟩
  · rw [hs1, hs2]
    exact ⟨rfl, rfl⟩

/-- C7 witness: the statement instantiated with the trivial concrete random
source on both sides, related by equality, on a 2×2 maze. -/
theorem C7_witness :
    (Maze.populate cOps (Maze.new 2 2) 0).map (fun r => r.1) =
      (Maze.populate cOps (Maze.new 2 2) 0).map (fun r => r.1) ∧
    (Maze.populate cOps (Maze.new 2 2) 0).map (fun r => r.1.save_to_file) =
      (Maze.populate cOps (Maze.new 2 2) 0).map (fun r => r.1.save_to_file) :=
  C7_populate_deterministic cOps cOps (fun a b => a = b)
    (fun s₁ s₂ n hR => by rw [hR]; exact ⟨rfl, rfl⟩)
    (fun s₁ s₂ l hR => by rw [hR]; exact ⟨rfl, rfl⟩)
    (Maze.new 2 2) 0 0 rfl

/-- C8: when width or height is zero, the starting-coordinate sampling
range is empty, so `populate` fails before any carving (the `gen_range`
panic is modelled as `none`) and `main` writes no output file. -/
theorem C8_degenerate_dimensions_fail {σ : Type} (ops : RngOps σ) (w h : Nat)
    (s : σ) (hz : w = 0 ∨ h = 0) :
    Maze.populate ops (Maze.new w h) s = none ∧ mainModel ops w h s = none := by
  have hpop : Maze.populate ops (Maze.new w h) s = none := by
    rcases hz with hz | hz
    · simp [Maze.populate, RngOps.genRange, Maze.new, hz]
    · by_cases hw0 : w = 0
      · simp [Maze.populate, RngOps.genRange, Maze.new, hw0]
      · simp [Maze.populate, RngOps.genRange, Maze.new, hw0, hz]
  exact ⟨hpop, by rw [mainModel, hpop]; rfl⟩

/-- C8 witness: the statement at width 0, height 5. -/
theorem C8_witness :
    Maze.populate cOps (Maze.new 0 5) 0 = none ∧ mainModel cOps 0 5 0 = none :=
  C8_degenerate_dimensions_fail cOps 0 5 0 (Or.inl rfl)

/-- C9, counterexample: the tile grid is stored with `width` rows of
`height` columns, so the pixel buffer lays tile `(x, y)` at image row `x`,
column `y` — pixel `(row, col)` is the color of tile `(row, col)`, not of
tile `(col, row)` as the claim states.  On a 2×2 maze whose only `Empty`
tile is `(0, 1)`, pixel `(0, 1)` is white while tile `(1, 0)` is a black
`Wall`. -/
theorem C9_counterexample :
    mazeC9.save_to_file.pixelAt 0 1 = some (RGB8.mk 255 255 255) ∧
    (mazeC9.data.get 1 0).map RGB8.fromTile = some (RGB8.mk 0 0 0) ∧
    mazeC9.save_to_file.pixelAt 0 1 ≠ (mazeC9.data.get 1 0).map RGB8.fromTile := by
  decide

/-- C9 (amended): `save_to_file` produces a `width × height` pixel, 8-bit
RGB buffer by mapping tiles in the tile grid's row-major enumeration order
under Wall→black, Empty→white, Start→green, End→red; for a square maze
pixel `(row, col)` of the image equals the color of tile `(row, col)` (the
tile whose first coordinate is the image row). -/
theorem C9_save_to_file_pixels (m : Maze) (row col : Nat)
    (hr : m.data.rows = m.width) (hc : m.data.cols = m.height)
    (hwf : m.data.Wf) (hsq : m.width = m.height)
    (hrow : row < m.height) (hcol : col < m.width) :
    m.save_to_file.width = m.width ∧
    m.save_to_file.height = m.height ∧
    m.save_to_file.pixels.length = m.width * m.height ∧
    RGB8.fromTile TileState.Wall = RGB8.mk 0 0 0 ∧
    RGB8.fromTile TileState.Empty = RGB8.mk 255 255 255 ∧
    RGB8.fromTile TileState.Start = RGB8.mk 0 255 0 ∧
    RGB8.fromTile TileState.End = RGB8.mk 255 0 0 ∧
    m.save_to_file.pixelAt row col = (m.data.get row col).map RGB8.fromTile := by
  refine ⟨rfl, rfl, ?_, rfl, rfl, rfl, rfl, ?_⟩
  · show (m.data.data.map RGB8.fromTile).length = m.width * m.height
    rw [List.length_map, hwf, hr, hc]
  · have hcond : row < m.save_to_file.height ∧ col < m.save_to_file.width :=
      ⟨hrow, hcol⟩
    have h1 : m.save_to_file.pixelAt row col =
        (m.data.data.map RGB8.fromTile)[row * m.width + col]? := by
      rw [PngImage.pixelAt, if_pos hcond]
      rfl
    have hrb : row < m.data.rows := by rw [hr, hsq]; exact hrow
    have hcb : col < m.data.cols := by rw [hc, ← hsq]; exact hcol
    have h2 : m.data.get row col = m.data.data[row * m.data.cols + col]? := by
      rw [Grid.get, if_pos ⟨hrb, hcb⟩]
    rw [h1, h2, List.getElem?_map]
    have hidx : row * m.width + col = row * m.data.cols + col := by
      rw [hc, ← hsq]
    rw [hidx]

/-- C9 witness: the amended statement at the concrete square 2×2 maze,
pixel `(0, 1)`. -/
theorem C9_witness :
    mazeC9.save_to_file.width = mazeC9.width ∧
    mazeC9.save_to_file.height = mazeC9.height ∧
    mazeC9.save_to_file.pixels.length = mazeC9.width * mazeC9.height ∧
    RGB8.fromTile TileState.Wall = RGB8.mk 0 0 0 ∧
    RGB8.fromTile TileState.Empty = RGB8.mk 255 255 255 ∧
    RGB8.fromTile TileState.Start = RGB8.mk 0 255 0 ∧
    RGB8.fromTile TileState.End = RGB8.mk 255 0 0 ∧
    mazeC9.save_to_file.pixelAt 0 1 =
      (mazeC9.data.get 0 1).map RGB8.fromTile :=
  C9_save_to_file_pixels mazeC9 0 1 rfl rfl rfl rfl (by decide) (by decide)
